import Mathlib

/-!
Verification of the ISO-TP / UDS diagnostic toolkit (`src/uds.py`,
`src/can_monitor.py`) against its natural-language specification.

The Python source is shallowly embedded: byte strings become `List ℕ`
(each element a byte value), Python floats arising from the exact
divisions in `_calc_st_delay` become `ℚ`, bus I/O is made explicit by
passing the frames a call consumes and produces as lists, and mutable
`dict` state becomes structures threaded through step functions.
Python `&`, `|`, `^`, `<<`, `>>` are modelled by `&&&`, `|||`, `^^^`,
`<<<`, `>>>` on `ℕ`.
-/

namespace OBD

/-! ## Arithmetic bridges between the bitwise source operations and
arithmetic used by the specification statements. -/

theorem and_fifteen (n : ℕ) : n &&& 15 = n % 16 := by
  have h := Nat.and_pow_two_sub_one_eq_mod n 4
  norm_num at h
  exact h

theorem and_255 (n : ℕ) : n &&& 255 = n % 256 := by
  have h := Nat.and_pow_two_sub_one_eq_mod n 8
  norm_num at h
  exact h

theorem and_16383 (n : ℕ) : n &&& 16383 = n % 16384 := by
  have h := Nat.and_pow_two_sub_one_eq_mod n 14
  norm_num at h
  exact h

theorem and_three (n : ℕ) : n &&& 3 = n % 4 := by
  have h := Nat.and_pow_two_sub_one_eq_mod n 2
  norm_num at h
  exact h

theorem shiftr_eight (n : ℕ) : n >>> 8 = n / 256 := by
  have h := Nat.shiftRight_eq_div_pow n 8
  norm_num at h
  exact h

theorem shiftr_four (n : ℕ) : n >>> 4 = n / 16 := by
  have h := Nat.shiftRight_eq_div_pow n 4
  norm_num at h
  exact h

theorem shiftr_fourteen (n : ℕ) : n >>> 14 = n / 16384 := by
  have h := Nat.shiftRight_eq_div_pow n 14
  norm_num at h
  exact h

theorem shiftl_eight (n : ℕ) : n <<< 8 = n * 256 := by
  have h := Nat.shiftLeft_eq n 8
  norm_num at h
  exact h

/-- For `b < 2^k` we have `(a <<< k) ||| b = a * 2^k + b`: the ISO-TP PCI
bytes pack disjoint bit fields, so the source's `|` is addition. -/
theorem or_eq_add_of_lt (a b k : ℕ) (hb : b < 2 ^ k) :
    (a <<< k) ||| b = a * 2 ^ k + b := by
  rw [Nat.shiftLeft_eq, Nat.mul_comm a (2 ^ k)]
  exact (Nat.mul_add_lt_is_or hb a).symm

/-! ## STmin decoding (`_calc_st_delay`, src/uds.py lines 18-24)

The Python function divides by the float literals `1000.0` and `10000.0`;
both quotients are modelled exactly in `ℚ`. -/

/-- Embedding of `_calc_st_delay`: convert an STmin byte to seconds. -/
def _calc_st_delay (byte : ℕ) : ℚ :=
  if byte ≤ 0x7F then (byte : ℚ) / 1000
  else if 0xF1 ≤ byte ∧ byte ≤ 0xF9 then ((byte : ℚ) - 0xF0) / 10000
  else 0

/-! ## DTC canonicalization (`_convert_to_pcode`, src/can_monitor.py 142-150) -/

/-- One uppercase hexadecimal digit, as produced by Python's `X` format. -/
def hexDigit (n : ℕ) : Char :=
  if n < 10 then Char.ofNat (0x30 + n) else Char.ofNat (0x37 + n)

/-- Python `f"{digits:04X}"` for `digits < 0x10000`: exactly four uppercase
hexadecimal digits (the argument of `_convert_to_pcode` is masked to 14
bits, so the `04` pad width is never exceeded). -/
def hex4 (n : ℕ) : String :=
  String.mk [hexDigit (n / 4096 % 16), hexDigit (n / 256 % 16),
    hexDigit (n / 16 % 16), hexDigit (n % 16)]

/-- Embedding of `_convert_to_pcode`: three raw DTC bytes to a `Pxxxx`-style
code. The source indexes `code_bytes[0]`/`code_bytes[1]` after a length
guard, builds `value = (b0 << 8) | b1`, maps the top two bits through
`{0: P, 1: C, 2: B, 3: U}` (with `.get` default `"P"`), and formats
`value & 0x3FFF` as `04X`. -/
def _convert_to_pcode (code_bytes : List ℕ) : String :=
  match code_bytes with
  | b0 :: b1 :: _ =>
    let value := (b0 <<< 8) ||| b1
    let sel := (value >>> 14) &&& 0x3
    let letter := if sel = 0 then "P" else if sel = 1 then "C"
      else if sel = 2 then "B" else if sel = 3 then "U" else "P"
    letter ++ hex4 (value &&& 0x3FFF)
  | _ => "P0000"

/-- Specification-side letter table: index 0..3 to `P`,`C`,`B`,`U`. -/
def pcodeLetter (i : ℕ) : String :=
  if i = 0 then "P" else if i = 1 then "C" else if i = 2 then "B" else "U"

/-- C4: for every byte `b`, the STmin delay function returns `b` milliseconds
when `0 ≤ b ≤ 0x7F`, `(b − 0xF0) × 100 µs` when `0xF1 ≤ b ≤ 0xF9`, and `0`
otherwise; in particular `0x00 ↦ 0 s`, `0x7F ↦ 0.127 s`, `0xF1 ↦ 0.0001 s`,
`0xF9 ↦ 0.0009 s`, `0x80 ↦ 0 s`. -/
theorem stmin_decode_spec (b : ℕ) :
    (b ≤ 0x7F → _calc_st_delay b = (b : ℚ) * (1 / 1000)) ∧
    (0xF1 ≤ b → b ≤ 0xF9 → _calc_st_delay b = ((b : ℚ) - 0xF0) * (100 / 1000000)) ∧
    (0x7F < b → ¬(0xF1 ≤ b ∧ b ≤ 0xF9) → _calc_st_delay b = 0) ∧
    _calc_st_delay 0x00 = 0 ∧ _calc_st_delay 0x7F = 127 / 1000 ∧
    _calc_st_delay 0xF1 = 1 / 10000 ∧ _calc_st_delay 0xF9 = 9 / 10000 ∧
    _calc_st_delay 0x80 = 0 := by
  unfold _calc_st_delay
  refine ⟨fun h => ?_, fun h1 h2 => ?_, fun h1 h2 => ?_, ?_, ?_, ?_, ?_, ?_⟩
  · rw [if_pos h]; ring
  · rw [if_neg (by omega), if_pos ⟨h1, h2⟩]; ring
  · rw [if_neg (by omega), if_neg h2]
  all_goals norm_num

/-- Witness for C4: evaluates the theorem at `b = 5` and `b = 0xF3`. -/
theorem stmin_decode_spec_witness :
    ((5 : ℕ) ≤ 0x7F ∧ _calc_st_delay 5 = (5 : ℚ) * (1 / 1000)) ∧
    ((0xF1 : ℕ) ≤ 0xF3 ∧ (0xF3 : ℕ) ≤ 0xF9 ∧
      _calc_st_delay 0xF3 = ((0xF3 : ℚ) - 0xF0) * (100 / 1000000)) :=
  ⟨⟨by norm_num, (stmin_decode_spec 5).1 (by norm_num)⟩,
   ⟨by norm_num, by norm_num,
    (stmin_decode_spec 0xF3).2.1 (by norm_num) (by norm_num)⟩⟩

/-- C5: canonicalization forms `(b0 << 8) | b1`, picks the letter from the
top two bits (`0→P, 1→C, 2→B, 3→U`), renders the low 14 bits as four
uppercase hex digits; `(0x20, 0xF9) ↦ "P20F9"` and `(0x05, 0x8D) ↦ "P058D"`. -/
theorem dtc_pcode_spec (b0 b1 : ℕ) (rest : List ℕ) (hb1 : b1 < 256) :
    _convert_to_pcode (b0 :: b1 :: rest) =
      pcodeLetter ((b0 * 256 + b1) / 16384 % 4) ++
        hex4 ((b0 * 256 + b1) % 16384) ∧
    (∀ n : ℕ, (hex4 n).length = 4) ∧
    _convert_to_pcode [0x20, 0xF9, 0x00] = "P20F9" ∧
    _convert_to_pcode [0x05, 0x8D, 0x00] = "P058D" := by
  refine ⟨?_, fun n => rfl, by decide, by decide⟩
  have hv : (b0 <<< 8) ||| b1 = b0 * 256 + b1 := by
    have := or_eq_add_of_lt b0 b1 8
    norm_num at this
    exact this hb1
  simp only [_convert_to_pcode, hv, shiftr_fourteen, and_three, and_16383,
    pcodeLetter]
  have hsel : (b0 * 256 + b1) / 16384 % 4 < 4 := Nat.mod_lt _ (by norm_num)
  have h4 : (b0 * 256 + b1) / 16384 % 4 = 0 ∨ (b0 * 256 + b1) / 16384 % 4 = 1 ∨
      (b0 * 256 + b1) / 16384 % 4 = 2 ∨ (b0 * 256 + b1) / 16384 % 4 = 3 := by
    omega
  rcases h4 with h | h | h | h <;> rw [h] <;> norm_num

/-- Witness for C5: evaluates the theorem at bytes `(0xC1, 0x55)`. -/
theorem dtc_pcode_spec_witness :
    (0x55 : ℕ) < 256 ∧
    (_convert_to_pcode [0xC1, 0x55, 0x00] =
        pcodeLetter ((0xC1 * 256 + 0x55) / 16384 % 4) ++
          hex4 ((0xC1 * 256 + 0x55) % 16384) ∧
      (∀ n : ℕ, (hex4 n).length = 4) ∧
      _convert_to_pcode [0x20, 0xF9, 0x00] = "P20F9" ∧
      _convert_to_pcode [0x05, 0x8D, 0x00] = "P058D") :=
  ⟨by norm_num, dtc_pcode_spec 0xC1 0x55 [0x00] (by norm_num)⟩

/-! ## Passive UDS reassembler (`_handle_uds_frame`, src/can_monitor.py 189-235)

The mutating `state` dict (keys `expected`, `payload`) becomes `MonState`.
The function's observable effects — whether the frame was consumed, whether
a flow-control frame was sent to `ecu_req_id`, and any completed payload
handed to `_process_uds_payload` — are returned alongside the new state.
An 8-byte frame is assumed where the source indexes `data[1]` (a shorter
First Frame would raise `IndexError`); `expected` is a `ℕ`, which agrees
with the source on every test the code performs (`> 0`, `<= 0`) because a
negative Python value and `0` behave identically there. -/

structure MonState where
  expected : ℕ
  payload : List ℕ
deriving DecidableEq

inductive MonAction where
  | consumed (sentFC : Bool) (completed : Option (List ℕ))
  | notConsumed
deriving DecidableEq

/-- Embedding of `_handle_uds_frame`. -/
def handle_uds_frame (ecuReqId : Option ℕ) (s : MonState) (data : List ℕ) :
    MonState × MonAction :=
  match data with
  | [] => (s, .consumed false none)
  | pci :: rest =>
    if pci >>> 4 = 0x0 then
      (s, .consumed false (some (rest.take (pci &&& 0xF))))
    else if pci >>> 4 = 0x1 then
      let payload := rest.drop 1
      let length := ((pci &&& 0xF) <<< 8) ||| rest.headI
      ({ expected := length - payload.length, payload := payload },
        .consumed ecuReqId.isSome none)
    else if pci >>> 4 = 0x2 ∧ 0 < s.expected then
      let tk := min s.expected 7
      let payload := s.payload ++ rest.take tk
      if s.expected - tk = 0 then
        ({ expected := 0, payload := [] }, .consumed false (some payload))
      else
        ({ expected := s.expected - tk, payload := payload },
          .consumed false none)
    else
      (s, .notConsumed)

/-- C1 counterexample: a First Frame declaring 10 bytes is followed by a
Consecutive Frame with sequence nibble 2 where 1 would be expected; the
passive reassembler neither aborts nor discards — it appends the bytes and
delivers the completed 10-byte payload. -/
theorem passive_cf_ignores_sequence_cex :
    (handle_uds_frame (some 0x7E0)
        (handle_uds_frame (some 0x7E0) ⟨0, []⟩
          [0x10, 0x0A, 1, 2, 3, 4, 5, 6]).1
        [0x22, 7, 8, 9, 10, 0, 0, 0]) =
      (⟨0, []⟩, .consumed false (some [1, 2, 3, 4, 5, 6, 7, 8, 9, 10])) := by
  decide

/-- C1 amended: the passive reassembler performs no sequence-number check —
any Consecutive Frame arriving while bytes are expected has
`min(expected, 7)` bytes appended, with a result independent of its
sequence nibble. -/
theorem passive_cf_no_sequence_check (ecu : Option ℕ) (s : MonState)
    (sq : ℕ) (rest : List ℕ) (hsq : sq < 16) (hexp : 0 < s.expected) :
    handle_uds_frame ecu s ((0x20 ||| sq) :: rest) =
      (if s.expected ≤ 7 then
        (⟨0, []⟩, .consumed false (some (s.payload ++ rest.take s.expected)))
      else
        (⟨s.expected - 7, s.payload ++ rest.take 7⟩,
          .consumed false none)) := by
  have hb : (0x20 ||| sq) = 32 + sq := by
    have := or_eq_add_of_lt 2 sq 4
    norm_num at this
    exact this hsq
  have hft : (32 + sq) >>> 4 = 2 := by rw [shiftr_four]; omega
  rw [hb]
  unfold handle_uds_frame
  dsimp only
  rw [hft]
  rw [if_neg (by norm_num), if_neg (by norm_num), if_pos ⟨rfl, hexp⟩]
  rcases Nat.lt_or_ge 7 s.expected with h | h
  · have htk : min s.expected 7 = 7 := min_eq_right (by omega)
    rw [htk, if_neg (by omega), if_neg (by omega)]
  · have htk : min s.expected 7 = s.expected := min_eq_left h
    rw [htk, Nat.sub_self, if_pos rfl, if_pos h]

/-- Witness for C1's amended theorem, at a concrete mid-reassembly state
and a Consecutive Frame with sequence nibble 9. -/
theorem passive_cf_no_sequence_check_witness :
    (9 : ℕ) < 16 ∧ 0 < (MonState.mk 4 [1, 2, 3, 4, 5, 6]).expected ∧
    handle_uds_frame none ⟨4, [1, 2, 3, 4, 5, 6]⟩
        ((0x20 ||| 9) :: [7, 8, 9, 10, 0, 0, 0]) =
      (if (4 : ℕ) ≤ 7 then
        (⟨0, []⟩, .consumed false
          (some ([1, 2, 3, 4, 5, 6] ++ [7, 8, 9, 10, 0, 0, 0].take 4)))
      else
        (⟨4 - 7, [1, 2, 3, 4, 5, 6] ++ [7, 8, 9, 10, 0, 0, 0].take 7⟩,
          .consumed false none)) :=
  ⟨by norm_num, by norm_num,
    passive_cf_no_sequence_check none ⟨4, [1, 2, 3, 4, 5, 6]⟩ 9
      [7, 8, 9, 10, 0, 0, 0] (by norm_num) (by norm_num)⟩

/-! ## Transport queue (monitor, src/can_monitor.py 249-263 and 368-378)

`queue.Queue(maxsize=1000)`: `put_nowait` raises `queue.Full` exactly when
`qsize() >= maxsize`; the monitor catches `Full` and drops the frame with a
warning. The worker's `get` removes the oldest item. -/

/-- Bounded-queue `put_nowait`: returns the new queue and whether the
item was dropped (`queue.Full` raised and caught by the monitor). -/
def put_nowait (maxsize : ℕ) (q : List String) (x : String) :
    List String × Bool :=
  if q.length < maxsize then (q ++ [x], false) else (q, true)

inductive QueueOp where
  | enq (x : String)
  | deq

/-- One queue transition: producer `put_nowait` or worker `get`. -/
def stepQueue (cap : ℕ) (q : List String) : QueueOp → List String
  | .enq x => (put_nowait cap q x).1
  | .deq => q.tail

/-- The queue contents after a sequence of producer/worker operations,
starting empty. -/
def runQueue (cap : ℕ) (ops : List QueueOp) : List String :=
  List.foldl (stepQueue cap) [] ops

theorem stepQueue_length_le (cap : ℕ) (q : List String) (op : QueueOp)
    (h : q.length ≤ cap) : (stepQueue cap q op).length ≤ cap := by
  cases op with
  | enq x =>
    simp only [stepQueue, put_nowait]
    split
    · simp; omega
    · exact h
  | deq =>
    simp only [stepQueue]
    have := List.length_tail q
    omega

theorem foldl_queue_length_le (cap : ℕ) (ops : List QueueOp) :
    ∀ q : List String, q.length ≤ cap →
      (List.foldl (stepQueue cap) q ops).length ≤ cap := by
  induction ops with
  | nil => intro q h; simpa using h
  | cons op ops ih =>
    intro q h
    exact ih _ (stepQueue_length_le cap q op h)

/-- C8: the transport queue never exceeds its capacity of 1000 items; the
producer's non-blocking put drops exactly when the queue is full, leaving
the queue unchanged. -/
theorem transport_queue_bounded :
    (∀ ops : List QueueOp, (runQueue 1000 ops).length ≤ 1000) ∧
    (∀ (q : List String) (x : String),
      ((put_nowait 1000 q x).2 = true ↔ 1000 ≤ q.length)) ∧
    (∀ (q : List String) (x : String),
      (put_nowait 1000 q x).2 = true → (put_nowait 1000 q x).1 = q) := by
  refine ⟨fun ops => foldl_queue_length_le 1000 ops [] (by simp), ?_, ?_⟩
  · intro q x
    simp only [put_nowait]
    split <;> simp <;> omega
  · intro q x
    simp only [put_nowait]
    split <;> simp

/-- Witness for C8: the bound and the drop criterion at concrete inputs. -/
theorem transport_queue_bounded_witness :
    (runQueue 1000 [.enq "a", .enq "b", .deq]).length ≤ 1000 ∧
    ((put_nowait 1000 [] "x").2 = true ↔ 1000 ≤ ([] : List String).length) :=
  ⟨transport_queue_bounded.1 [.enq "a", .enq "b", .deq],
    transport_queue_bounded.2.1 [] "x"⟩

/-! ## Reconnect backoff (`main`, src/can_monitor.py 452-491)

Each iteration of the `while True` loop either fails to open the bus
(`connectFail`: `can.interface.Bus` raises), opens it and runs `monitor`
until `monitor` raises (`runThenFail`), or would reach the `delay = 1.0`
statement if `monitor` returned normally (`runReturned`) — which the
source's `monitor` cannot do, since its receive loop contains no `break`
or `return` and exits only by raising. On the exception paths the code
executes `time.sleep(delay)` and then `delay = min(delay * 2, 30.0)`. -/

inductive IterOutcome where
  | connectFail
  | runThenFail
  | runReturned

/-- One reconnect-loop iteration: the sleep performed (if any) and the
delay value afterwards. -/
def mainStep (delay : ℚ) : IterOutcome → Option ℚ × ℚ
  | .connectFail => (some delay, min (delay * 2) 30)
  | .runThenFail => (some delay, min (delay * 2) 30)
  | .runReturned => (none, 1)

/-- The backoff sleeps performed along a run of the reconnect loop. -/
def mainSleeps (delay : ℚ) : List IterOutcome → List (Option ℚ)
  | [] => []
  | o :: os => (mainStep delay o).1 :: mainSleeps (mainStep delay o).2 os

/-- The delay value after a run of the reconnect loop. -/
def delayAfter (delay : ℚ) (os : List IterOutcome) : ℚ :=
  List.foldl (fun d o => (mainStep d o).2) delay os

/-- C9 counterexample: a failed connection (sleep 1 s) followed by an
iteration that successfully enters RUNNING and later fails sleeps 2 s, not
the 1 s a reset-on-entry would give: the delay is not reset on a
successful RUNNING entry. -/
theorem restart_delay_no_reset_cex :
    mainSleeps 1 [.connectFail, .runThenFail] = [some 1, some 2] ∧
    (2 : ℚ) ≠ 1 := by
  constructor
  · show [some (1 : ℚ), some (min (1 * 2) 30)] = [some 1, some 2]
    norm_num
  · norm_num

theorem min_double_pow (k : ℕ) :
    min (min ((2 : ℚ) ^ k) 30 * 2) 30 = min ((2 : ℚ) ^ (k + 1)) 30 := by
  rcases le_total ((2 : ℚ) ^ k) 30 with h | h
  · rw [min_eq_left h, pow_succ]
  · have hmono : (2 : ℚ) ^ k ≤ 2 ^ (k + 1) :=
      pow_le_pow_right₀ (by norm_num) (Nat.le_succ k)
    rw [min_eq_right h, min_eq_right (by norm_num : (30 : ℚ) ≤ 30 * 2),
      min_eq_right (le_trans h hmono)]

/-- C9 amended: starting from 1 s, the delay after `n` failures is
`min(2^n, 30)` (doubling, saturating at 30), and an iteration that enters
RUNNING and later fails updates the delay exactly like a failed
connection — no reset to 1 s occurs on a successful RUNNING entry. -/
theorem restart_delay_doubles_saturates :
    (∀ n : ℕ, delayAfter 1 (List.replicate n .runThenFail) = min ((2 : ℚ) ^ n) 30) ∧
    (∀ d : ℚ, mainStep d .runThenFail = mainStep d .connectFail) := by
  constructor
  · have key : ∀ (n k : ℕ),
        delayAfter (min ((2 : ℚ) ^ k) 30) (List.replicate n .runThenFail) =
          min ((2 : ℚ) ^ (k + n)) 30 := by
      intro n
      induction n with
      | zero => intro k; simp [delayAfter]
      | succ m ih =>
        intro k
        rw [List.replicate_succ]
        show delayAfter (min (min ((2:ℚ) ^ k) 30 * 2) 30)
            (List.replicate m .runThenFail) = _
        rw [min_double_pow, ih (k + 1)]
        ring_nf
    intro n
    have h0 : (1 : ℚ) = min ((2 : ℚ) ^ (0 : ℕ)) 30 := by norm_num
    rw [h0, key n 0]
    norm_num
  · intro d
    rfl

/-- Witness for C9's amended theorem: six failures saturate the delay at
30 s, and the update after a RUNNING entry matches a connect failure. -/
theorem restart_delay_doubles_saturates_witness :
    delayAfter 1 (List.replicate 6 .runThenFail) = min ((2 : ℚ) ^ 6) 30 ∧
    mainStep 5 .runThenFail = mainStep 5 .connectFail :=
  ⟨restart_delay_doubles_saturates.1 6, restart_delay_doubles_saturates.2 5⟩

/-! ## UDS client receive (`UDSClient.receive`, src/uds.py 259-317)

The `state` dict (keys `expected`, `payload`, `next_seq`, `bs`) becomes
`RxState`; one loop body processing one frame with a matching arbitration
identifier becomes `receiveStep`. The step either returns a payload
(`done`), keeps looping (`next`, with a flag recording whether a
flow-control frame was transmitted by `_send_fc`), raises
`ISOTransportError` (`fail`), or skips a frame whose address-extension
byte does not match (`skip`). As in the passive reassembler, `expected`
is a `ℕ` and 8-byte frames are assumed where the source indexes
`data[1]`. -/

structure RxState where
  expected : ℕ
  payload : List ℕ
  next_seq : ℕ
  bs : ℕ
deriving DecidableEq

inductive RxStep where
  | done (payload : List ℕ) (s : RxState)
  | next (s : RxState) (fcSent : Bool)
  | fail (msg : String) (s : RxState)
  | skip
deriving DecidableEq

/-- Wire bytes of a frame under the optional address extension: the source
prepends `self.address_extension` to every frame it builds, and on receive
compares `data[0]` against it before stripping it. -/
def aeWire (ae : Option ℕ) (l : List ℕ) : List ℕ :=
  match ae with
  | some e => e :: l
  | none => l

/-- Embedding of one iteration of `UDSClient.receive` applied to the data
bytes of a frame carrying the expected response identifier. -/
def receiveStep (ae : Option ℕ) (rx_block_size : ℕ) (s : RxState)
    (msgData : List ℕ) : RxStep :=
  let stripped : Option (List ℕ) :=
    match ae with
    | some e => if msgData.headI = e then some msgData.tail else none
    | none => some msgData
  match stripped with
  | none => .skip
  | some data =>
    match data with
    | [] => .fail "IndexError" s
    | d0 :: rest =>
      if d0 >>> 4 = 0x0 then
        .done (rest.take (d0 &&& 0xF)) s
      else if d0 >>> 4 = 0x1 then
        let pl := rest.drop 1
        let total := ((d0 &&& 0xF) <<< 8) ||| rest.headI
        .next { expected := total - pl.length, payload := pl,
                next_seq := 1, bs := 0 } true
      else if d0 >>> 4 = 0x2 ∧ 0 < s.expected then
        if d0 &&& 0xF ≠ s.next_seq then
          .fail "Sequence number mismatch" { s with expected := 0, payload := [] }
        else
          let tk := min s.expected (if ae.isSome then 6 else 7)
          let pl := s.payload ++ rest.take tk
          let ns := (s.next_seq + 1) &&& 0xF
          if s.expected - tk = 0 then
            .done pl { expected := 0, payload := [], next_seq := ns, bs := s.bs + 1 }
          else if 0 < rx_block_size ∧ rx_block_size ≤ s.bs + 1 then
            .next { expected := s.expected - tk, payload := pl,
                    next_seq := ns, bs := 0 } true
          else
            .next { expected := s.expected - tk, payload := pl,
                    next_seq := ns, bs := s.bs + 1 } false
      else
        .next { s with expected := 0, payload := [] } false

/-- C7: a Consecutive Frame whose sequence nibble differs from `next_seq`
while bytes are expected makes `receive` fail with the sequence-mismatch
error, with the buffer emptied and the expected count zeroed in the state
it leaves behind. -/
theorem receive_sequence_mismatch (ae : Option ℕ) (rbs : ℕ) (s : RxState)
    (sq : ℕ) (rest : List ℕ) (hsq : sq < 16) (hne : sq ≠ s.next_seq)
    (hexp : 0 < s.expected) :
    receiveStep ae rbs s (aeWire ae ((0x20 ||| sq) :: rest)) =
      .fail "Sequence number mismatch"
        { s with expected := 0, payload := [] } := by
  have hb : (0x20 ||| sq) = 32 + sq := by
    have := or_eq_add_of_lt 2 sq 4
    norm_num at this
    exact this hsq
  have hft : (32 + sq) >>> 4 = 2 := by rw [shiftr_four]; omega
  have hlow : (32 + sq) &&& 0xF = sq := by rw [and_fifteen]; omega
  rw [hb]
  cases ae with
  | none =>
    unfold receiveStep aeWire
    dsimp only
    rw [hft, hlow]
    rw [if_neg (by norm_num), if_neg (by norm_num), if_pos ⟨rfl, hexp⟩,
      if_pos hne]
  | some e =>
    unfold receiveStep aeWire
    dsimp only [List.headI_cons, List.tail_cons]
    rw [if_pos rfl]
    dsimp only
    rw [hft, hlow]
    rw [if_neg (by norm_num), if_neg (by norm_num), if_pos ⟨rfl, hexp⟩,
      if_pos hne]

/-- Witness for C7: the spec's own scenario — after `FF(total=10)` the
state expects 4 more bytes with `next_seq = 1`; a `CF(seq=2)` fails and
clears the buffer. -/
theorem receive_sequence_mismatch_witness :
    (2 : ℕ) < 16 ∧ (2 : ℕ) ≠ 1 ∧
      0 < (RxState.mk 4 [0x62, 1, 2, 3, 4, 5] 1 0).expected ∧
    receiveStep none 0 ⟨4, [0x62, 1, 2, 3, 4, 5], 1, 0⟩
        (aeWire none ((0x20 ||| 2) :: [6, 7, 8, 9, 0, 0, 0])) =
      .fail "Sequence number mismatch" ⟨0, [], 1, 0⟩ :=
  ⟨by norm_num, by norm_num, by norm_num,
    receive_sequence_mismatch none 0 ⟨4, [0x62, 1, 2, 3, 4, 5], 1, 0⟩ 2
      [6, 7, 8, 9, 0, 0, 0] (by norm_num) (by norm_num) (by norm_num)⟩

/-! ## UDS client send (`UDSClient.send`, src/uds.py 95-230)

The frames the bus hands back while the sender polls for flow control are
modelled by the list of flow-control frames the scan loop actually
inspects (frames with other arbitration identifiers, a mismatched
address-extension byte, or a PCI nibble other than `0x3` are skipped by
the loop without effect): each carries its flow-status nibble, BlockSize
byte, and STmin byte. The transmitted stream is returned as structured
events; `frameBytes` renders each event into the exact wire bytes the
source builds. -/

structure FlowCtl where
  fs : ℕ
  bs : ℕ
  st : ℕ
deriving DecidableEq

inductive FCResult where
  | cts (bs st : ℕ) (rest : List FlowCtl)
  | overflow
  | timeout
deriving DecidableEq

/-- The flow-control scan loop (src/uds.py 147-168 and 177-198): the first
frame with status `2` raises the overflow error, the first with status `0`
is adopted, `WAIT` (status `1`) keeps scanning, and an exhausted supply is
the deadline expiring. -/
def awaitFC : List FlowCtl → FCResult
  | [] => .timeout
  | fc :: rest =>
    if fc.fs = 2 then .overflow
    else if fc.fs = 0 then .cts fc.bs fc.st rest
    else awaitFC rest

inductive SendEvent where
  | txSF (pci : ℕ) (payload : List ℕ)
  | txFF (pciHigh pciLow : ℕ) (chunk : List ℕ)
  | txCF (sq : ℕ) (chunk : List ℕ)
  | fcAwait
deriving DecidableEq

inductive SendErr where
  | noFlowControl
  | fcTimeout
  | overflow
deriving DecidableEq

theorem awaitFC_cts_length {fcs rest : List FlowCtl} {b s : ℕ}
    (h : awaitFC fcs = .cts b s rest) : rest.length < fcs.length := by
  induction fcs with
  | nil => simp [awaitFC] at h
  | cons fc fcs ih =>
    unfold awaitFC at h
    split at h
    · exact absurd h (by simp)
    · split at h
      · cases h
        simp
      · have := ih h
        simp
        omega

/-- The consecutive-frame loop (src/uds.py 169-223). `rest` is
`payload[offset:]`; a chunk of `chunk_len` bytes is sent per iteration,
the sequence counter advances `(seq + 1) & 0x0F`, and once `block_size`
frames have gone out in the current block (when `block_size ≠ 0`) the
sender scans for another flow control and adopts its BlockSize. -/
def sendCFs (ae : Option ℕ) (rest : List ℕ) (seq sib bs : ℕ)
    (fcs : List FlowCtl) : Except SendErr (List SendEvent) :=
  if hr : rest = [] then .ok []
  else if bs ≠ 0 ∧ bs ≤ sib then
    match hfc : awaitFC fcs with
    | .timeout => .error .fcTimeout
    | .overflow => .error .overflow
    | .cts bs2 _ fcs2 =>
      (sendCFs ae rest seq 0 bs2 fcs2).map (fun evs => .fcAwait :: evs)
  else
    let chunkLen := if ae.isSome then 6 else 7
    (sendCFs ae (rest.drop chunkLen) ((seq + 1) &&& 0xF) (sib + 1) bs fcs).map
      (fun evs => .txCF seq (rest.take chunkLen) :: evs)
termination_by (rest.length, fcs.length)
decreasing_by
  · exact Prod.Lex.right rest.length (awaitFC_cts_length hfc)
  · apply Prod.Lex.left
    have h1 : 0 < rest.length := List.length_pos.mpr hr
    rw [List.length_drop]
    split <;> omega

/-- Embedding of `UDSClient.send`: the payload is the service byte followed
by the data bytes; `fcs` are the flow-control frames available to the
scan loops. -/
def send (ae : Option ℕ) (service : ℕ) (data : List ℕ)
    (fcs : List FlowCtl) : Except SendErr (List SendEvent) :=
  let payload := service :: data
  let singleLimit := if ae.isSome then 6 else 7
  if payload.length ≤ singleLimit then
    .ok [.txSF (payload.length &&& 0xF) payload]
  else
    let pciHigh := 0x10 ||| ((payload.length >>> 8) &&& 0xF)
    let pciLow := payload.length &&& 0xFF
    let firstLen := if ae.isSome then 5 else 6
    match awaitFC fcs with
    | .timeout => .error .noFlowControl
    | .overflow => .error .overflow
    | .cts bs _ fcs2 =>
      (sendCFs ae (payload.drop firstLen) 1 0 bs fcs2).map
        (fun evs => .txFF pciHigh pciLow (payload.take firstLen) :: .fcAwait :: evs)

/-- The wire bytes of each transmitted frame, exactly as `UDSClient.send`
builds `frame_data`, `ff_data` and `cf_data` (including zero padding and
the optional leading address-extension byte). -/
def frameBytes (ae : Option ℕ) : SendEvent → List ℕ
  | .txSF pci payload =>
    match ae with
    | none => pci :: payload ++ List.replicate (7 - payload.length) 0
    | some e => e :: pci :: payload ++ List.replicate (6 - payload.length) 0
  | .txFF hi lo chunk =>
    match ae with
    | none => hi :: lo :: chunk ++ List.replicate (8 - 2 - chunk.length) 0
    | some e => e :: hi :: lo :: chunk ++ List.replicate (8 - 3 - chunk.length) 0
  | .txCF sq chunk =>
    match ae with
    | none => (0x20 ||| (sq &&& 0xF)) :: chunk ++ List.replicate (7 - chunk.length) 0
    | some e => e :: (0x20 ||| (sq &&& 0xF)) :: chunk ++ List.replicate (6 - chunk.length) 0
  | .fcAwait => []

/-- The wire-visible content of a transmitted Consecutive Frame: its
sequence nibble (as masked onto the wire) and its unpadded data bytes. -/
def cfData : SendEvent → Option (ℕ × List ℕ)
  | .txCF sq chunk => some (sq &&& 0xF, chunk)
  | _ => none

def cfChunks (evs : List SendEvent) : List (List ℕ) :=
  (evs.filterMap cfData).map Prod.snd

def cfSeqs (evs : List SendEvent) : List ℕ :=
  (evs.filterMap cfData).map Prod.fst

def isAwait : SendEvent → Bool
  | .fcAwait => true
  | _ => false

/-- How many times the sender paused for a flow-control frame. -/
def awaitCount (evs : List SendEvent) : ℕ :=
  List.countP isAwait evs

theorem cfChunks_cons_cf (q : ℕ) (c : List ℕ) (evs : List SendEvent) :
    cfChunks (.txCF q c :: evs) = c :: cfChunks evs := by
  simp [cfChunks, cfData]

theorem cfChunks_cons_await (evs : List SendEvent) :
    cfChunks (.fcAwait :: evs) = cfChunks evs := by
  simp [cfChunks, cfData]

theorem cfSeqs_cons_cf (q : ℕ) (c : List ℕ) (evs : List SendEvent) :
    cfSeqs (.txCF q c :: evs) = (q &&& 0xF) :: cfSeqs evs := by
  simp [cfSeqs, cfData]

theorem cfSeqs_cons_await (evs : List SendEvent) :
    cfSeqs (.fcAwait :: evs) = cfSeqs evs := by
  simp [cfSeqs, cfData]

theorem except_map_ok {α β ε : Type} {f : α → β} {x : Except ε α} {b : β}
    (h : Except.map f x = .ok b) : ∃ a, x = .ok a ∧ b = f a := by
  cases x with
  | error e => simp [Except.map] at h
  | ok a =>
    simp [Except.map] at h
    exact ⟨a, rfl, h.symm⟩

theorem sendCFs_nil (ae : Option ℕ) (seq sib bs : ℕ) (fcs : List FlowCtl) :
    sendCFs ae [] seq sib bs fcs = .ok [] := by
  unfold sendCFs
  simp

/-- Structure of a successful consecutive-frame stream: the chunks
partition the remaining payload in order, the wire sequence nibbles count
up from `seq` modulo 16, and every event is a Consecutive Frame or a
flow-control pause. -/
theorem sendCFs_ok_spec (ae : Option ℕ) :
    ∀ (n : ℕ) (rest : List ℕ) (seq sib bs : ℕ) (fcs : List FlowCtl)
      (evs : List SendEvent),
      rest.length + fcs.length ≤ n →
      sendCFs ae rest seq sib bs fcs = .ok evs → seq < 16 →
      (cfChunks evs).flatten = rest ∧
      cfSeqs evs =
        (List.range (cfChunks evs).length).map (fun i => (seq + i) % 16) ∧
      (∀ e ∈ evs, (∃ q c, e = .txCF q c) ∨ e = .fcAwait) := by
  intro n
  induction n with
  | zero =>
    intro rest seq sib bs fcs evs hn h hseq
    have hr : rest = [] := by
      have := List.length_eq_zero.mp (by omega : rest.length = 0)
      exact this
    subst hr
    rw [sendCFs_nil] at h
    cases h
    refine ⟨rfl, rfl, by simp⟩
  | succ m ih =>
    intro rest seq sib bs fcs evs hn h hseq
    by_cases hr : rest = []
    · subst hr
      rw [sendCFs_nil] at h
      cases h
      refine ⟨rfl, rfl, by simp⟩
    · unfold sendCFs at h
      rw [dif_neg hr] at h
      by_cases hb : bs ≠ 0 ∧ bs ≤ sib
      · rw [if_pos hb] at h
        split at h
        · exact absurd h (by simp)
        · exact absurd h (by simp)
        · rename_i bs2 st2 fcs2 hfc
          obtain ⟨evs2, hok, hcons⟩ := except_map_ok h
          have hlt : fcs2.length < fcs.length := awaitFC_cts_length hfc
          obtain ⟨h1, h2, h3⟩ := ih rest seq 0 bs2 fcs2 evs2 (by omega) hok hseq
          subst hcons
          refine ⟨?_, ?_, ?_⟩
          · rw [cfChunks_cons_await]
            exact h1
          · rw [cfSeqs_cons_await, cfChunks_cons_await]
            exact h2
          · intro e he
            rcases List.mem_cons.mp he with he | he
            · right; exact he
            · exact h3 e he
      · rw [if_neg hb] at h
        dsimp only at h
        obtain ⟨evs2, hok, hcons⟩ := except_map_ok h
        have hlen : 0 < rest.length := List.length_pos.mpr hr
        have hseq2 : (seq + 1) &&& 0xF < 16 := by
          rw [and_fifteen]; omega
        obtain ⟨h1, h2, h3⟩ :=
          ih (rest.drop (if ae.isSome then 6 else 7)) ((seq + 1) &&& 0xF)
            (sib + 1) bs fcs evs2
            (by rw [List.length_drop]; split <;> omega) hok hseq2
        subst hcons
        have hsqw : seq &&& 0xF = seq := by rw [and_fifteen]; omega
        refine ⟨?_, ?_, ?_⟩
        · rw [cfChunks_cons_cf, List.flatten_cons, h1]
          exact List.take_append_drop _ rest
        · rw [cfSeqs_cons_cf, cfChunks_cons_cf, List.length_cons, h2, hsqw,
            List.range_succ_eq_map, List.map_cons, List.map_map]
          congr 1
          · omega
          · apply List.map_congr_left
            intro i _
            show (((seq + 1) &&& 0xF) + i) % 16 = (seq + (i + 1)) % 16
            rw [and_fifteen]
            omega
        · intro e he
          rcases List.mem_cons.mp he with he | he
          · left; exact ⟨_, _, he⟩
          · exact h3 e he

/-- With an advertised BlockSize of zero the consecutive-frame loop never
re-enters the flow-control scan: it succeeds on any flow-control supply
and pauses zero times. -/
theorem sendCFs_bs0 (ae : Option ℕ) :
    ∀ (n : ℕ) (rest : List ℕ) (seq sib : ℕ) (fcs : List FlowCtl),
      rest.length ≤ n →
      ∃ evs, sendCFs ae rest seq sib 0 fcs = .ok evs ∧ awaitCount evs = 0 := by
  intro n
  induction n with
  | zero =>
    intro rest seq sib fcs hn
    have hr : rest = [] := List.length_eq_zero.mp (by omega)
    subst hr
    exact ⟨[], sendCFs_nil ae seq sib 0 fcs, rfl⟩
  | succ m ih =>
    intro rest seq sib fcs hn
    by_cases hr : rest = []
    · subst hr
      exact ⟨[], sendCFs_nil ae seq sib 0 fcs, rfl⟩
    · have hlen : 0 < rest.length := List.length_pos.mpr hr
      obtain ⟨evs2, hok, hcnt⟩ :=
        ih (rest.drop (if ae.isSome then 6 else 7)) ((seq + 1) &&& 0xF)
          (sib + 1) fcs (by rw [List.length_drop]; split <;> omega)
      refine ⟨.txCF seq (rest.take (if ae.isSome then 6 else 7)) :: evs2, ?_, ?_⟩
      · unfold sendCFs
        rw [dif_neg hr, if_neg (by simp)]
        dsimp only
        rw [hok]
        rfl
      · simp only [awaitCount, List.countP_cons, isAwait]
        simpa [awaitCount] using hcnt

theorem receiveStep_sf (ae : Option ℕ) (rbs : ℕ) (s : RxState) (d0 : ℕ)
    (rest : List ℕ) (hd0 : d0 >>> 4 = 0) :
    receiveStep ae rbs s (aeWire ae (d0 :: rest)) =
      .done (rest.take (d0 &&& 0xF)) s := by
  cases ae with
  | none =>
    unfold receiveStep aeWire
    dsimp only
    rw [hd0, if_pos rfl]
  | some e =>
    unfold receiveStep aeWire
    dsimp only [List.headI_cons, List.tail_cons]
    rw [if_pos rfl]
    dsimp only
    rw [hd0, if_pos rfl]

/-- C3: a payload of 1–7 bytes (1–6 with address extension) goes out as
exactly one Single Frame whose low PCI nibble is the payload length, and
feeding that frame's wire bytes back to `receive` returns the payload
unchanged. -/
theorem single_frame_roundtrip (ae : Option ℕ) (service : ℕ) (data : List ℕ)
    (fcs : List FlowCtl) (rbs : ℕ) (s : RxState)
    (hlen : (service :: data).length ≤ if ae.isSome then 6 else 7) :
    send ae service data fcs =
      .ok [.txSF (service :: data).length (service :: data)] ∧
    receiveStep ae rbs s
        (frameBytes ae (.txSF (service :: data).length (service :: data))) =
      .done (service :: data) s := by
  have hlen16 : (service :: data).length < 16 := by
    split at hlen <;> omega
  have hft : (service :: data).length >>> 4 = 0 := by rw [shiftr_four]; omega
  have hmask : (service :: data).length &&& 0xF = (service :: data).length := by
    rw [and_fifteen]; omega
  constructor
  · unfold send
    dsimp only
    rw [if_pos hlen, hmask]
  · have hfb : frameBytes ae (.txSF (service :: data).length (service :: data)) =
        aeWire ae ((service :: data).length :: ((service :: data) ++
          List.replicate ((if ae.isSome then 6 else 7) -
            (service :: data).length) 0)) := by
      cases ae <;> rfl
    rw [hfb, receiveStep_sf ae rbs s _ _ hft, hmask, List.take_left' rfl]

/-- Witness for C3: a 3-byte request round-trips through one Single Frame. -/
theorem single_frame_roundtrip_witness :
    ((0x3E :: [1, 2]).length ≤ if (none : Option ℕ).isSome then 6 else 7) ∧
    send none 0x3E [1, 2] [] = .ok [.txSF (0x3E :: [1, 2]).length (0x3E :: [1, 2])] ∧
    receiveStep none 0 ⟨0, [], 0, 0⟩
        (frameBytes none (.txSF (0x3E :: [1, 2]).length (0x3E :: [1, 2]))) =
      .done (0x3E :: [1, 2]) ⟨0, [], 0, 0⟩ :=
  ⟨by norm_num,
    single_frame_roundtrip none 0x3E [1, 2] [] 0 ⟨0, [], 0, 0⟩ (by norm_num)⟩

/-- C2: past the single-frame limit the stream is one First Frame carrying
the first 6 payload bytes, then Consecutive Frames with sequence nibbles
`(1, 2, …, n) mod 16` whose data lengths together with the First Frame's 6
bytes sum to the payload length; with BlockSize 0 the sender pauses for a
flow control exactly once (after the First Frame, never mid-stream). -/
theorem multiframe_send_stream (service : ℕ) (data : List ℕ) (bs st : ℕ)
    (fcs : List FlowCtl) (hlen : 7 < (service :: data).length) :
    (∀ evs, send none service data (⟨0, bs, st⟩ :: fcs) = .ok evs →
      ∃ tail, evs =
          .txFF (0x10 ||| (((service :: data).length >>> 8) &&& 0xF))
              ((service :: data).length &&& 0xFF) ((service :: data).take 6)
            :: .fcAwait :: tail ∧
        (cfChunks tail).flatten = (service :: data).drop 6 ∧
        cfSeqs tail =
          (List.range (cfChunks tail).length).map (fun i => (i + 1) % 16) ∧
        6 + ((cfChunks tail).map List.length).sum = (service :: data).length ∧
        (∀ e ∈ tail, (∃ q c, e = .txCF q c) ∨ e = .fcAwait)) ∧
    (bs = 0 →
      ∃ evs, send none service data (⟨0, bs, st⟩ :: fcs) = .ok evs ∧
        awaitCount evs = 1) := by
  have hfc : awaitFC (⟨0, bs, st⟩ :: fcs) = .cts bs st fcs := by
    simp [awaitFC]
  constructor
  · intro evs h
    unfold send at h
    simp only [Option.isSome_none, Bool.false_eq_true, reduceIte] at h
    rw [if_neg (by omega), hfc] at h
    dsimp only at h
    obtain ⟨evs2, hok, hcons⟩ := except_map_ok h
    obtain ⟨h1, h2, h3⟩ := sendCFs_ok_spec none
      (((service :: data).drop 6).length + fcs.length)
      ((service :: data).drop 6) 1 0 bs fcs evs2 le_rfl hok (by norm_num)
    refine ⟨evs2, hcons, h1, ?_, ?_, h3⟩
    · rw [h2]
      apply List.map_congr_left
      intro i _
      omega
    · have := congrArg List.length h1
      rw [List.length_flatten, List.length_drop] at this
      omega
  · intro hbs
    subst hbs
    obtain ⟨evs2, hok, hcnt⟩ := sendCFs_bs0 none
      ((service :: data).drop 6).length ((service :: data).drop 6) 1 0 fcs le_rfl
    refine ⟨.txFF (0x10 ||| (((service :: data).length >>> 8) &&& 0xF))
        ((service :: data).length &&& 0xFF) ((service :: data).take 6)
      :: .fcAwait :: evs2, ?_, ?_⟩
    · unfold send
      simp only [Option.isSome_none, Bool.false_eq_true, reduceIte]
      rw [if_neg (by omega), hfc]
      dsimp only
      rw [hok]
      rfl
    · simp only [awaitCount] at hcnt
      simp [awaitCount, List.countP_cons, isAwait, hcnt]

/-- Witness for C2: the 9-byte payload `0x22 · [1..8]` with BlockSize 0. -/
theorem multiframe_send_stream_witness :
    7 < (0x22 :: [1, 2, 3, 4, 5, 6, 7, 8]).length ∧
    ((∀ evs, send none 0x22 [1, 2, 3, 4, 5, 6, 7, 8] (⟨0, 0, 0⟩ :: []) = .ok evs →
      ∃ tail, evs =
          .txFF (0x10 ||| (((0x22 :: [1, 2, 3, 4, 5, 6, 7, 8]).length >>> 8) &&& 0xF))
              ((0x22 :: [1, 2, 3, 4, 5, 6, 7, 8]).length &&& 0xFF)
              ((0x22 :: [1, 2, 3, 4, 5, 6, 7, 8]).take 6)
            :: .fcAwait :: tail ∧
        (cfChunks tail).flatten = (0x22 :: [1, 2, 3, 4, 5, 6, 7, 8]).drop 6 ∧
        cfSeqs tail =
          (List.range (cfChunks tail).length).map (fun i => (i + 1) % 16) ∧
        6 + ((cfChunks tail).map List.length).sum =
          (0x22 :: [1, 2, 3, 4, 5, 6, 7, 8]).length ∧
        (∀ e ∈ tail, (∃ q c, e = .txCF q c) ∨ e = .fcAwait)) ∧
    ((0 : ℕ) = 0 →
      ∃ evs, send none 0x22 [1, 2, 3, 4, 5, 6, 7, 8] (⟨0, 0, 0⟩ :: []) = .ok evs ∧
        awaitCount evs = 1)) :=
  ⟨by norm_num,
    multiframe_send_stream 0x22 [1, 2, 3, 4, 5, 6, 7, 8] 0 0 [] (by norm_num)⟩

/-- The 12-bit length a receiver decodes from the two First Frame PCI
bytes (src/uds.py line 282, src/can_monitor.py line 215). -/
def ffDeclared (hi lo : ℕ) : ℕ :=
  ((hi &&& 0xF) <<< 8) ||| lo

theorem ffDeclared_pci (L : ℕ) :
    ffDeclared (0x10 ||| ((L >>> 8) &&& 0xF)) (L &&& 0xFF) = L % 4096 := by
  have hx : (L >>> 8) &&& 0xF = L / 256 % 16 := by rw [shiftr_eight, and_fifteen]
  have hxlt : L / 256 % 16 < 16 := Nat.mod_lt _ (by norm_num)
  have h16 := or_eq_add_of_lt 1 (L / 256 % 16) 4
    (lt_of_lt_of_le hxlt (by norm_num))
  norm_num [Nat.one_shiftLeft] at h16
  unfold ffDeclared
  rw [hx, h16, and_fifteen]
  have hmod : (16 + L / 256 % 16) % 16 = L / 256 % 16 := by omega
  rw [hmod, and_255]
  have hor := or_eq_add_of_lt (L / 256 % 16) (L % 256) 8
    (lt_of_lt_of_le (Nat.mod_lt _ (by norm_num)) (by norm_num))
  norm_num at hor
  rw [hor]
  omega

/-- C10: `send` accepts payloads longer than 4095 bytes without complaint;
the First Frame's 12-bit length field then declares the length modulo
4096, which disagrees with the byte count actually segmented into the
First Frame and the Consecutive Frames. -/
theorem first_frame_length_truncation (service : ℕ) (data : List ℕ) (st : ℕ)
    (fcs : List FlowCtl) (hlen : 4095 < (service :: data).length) :
    ∃ tail,
      send none service data (⟨0, 0, st⟩ :: fcs) =
        .ok (.txFF (0x10 ||| (((service :: data).length >>> 8) &&& 0xF))
              ((service :: data).length &&& 0xFF) ((service :: data).take 6)
            :: .fcAwait :: tail) ∧
      ffDeclared (0x10 ||| (((service :: data).length >>> 8) &&& 0xF))
          ((service :: data).length &&& 0xFF) =
        (service :: data).length % 4096 ∧
      6 + ((cfChunks tail).map List.length).sum = (service :: data).length ∧
      ffDeclared (0x10 ||| (((service :: data).length >>> 8) &&& 0xF))
          ((service :: data).length &&& 0xFF) ≠ (service :: data).length := by
  have hfc : awaitFC (⟨0, 0, st⟩ :: fcs) = .cts 0 st fcs := by
    simp [awaitFC]
  obtain ⟨evs2, hok, hcnt⟩ := sendCFs_bs0 none
    ((service :: data).drop 6).length ((service :: data).drop 6) 1 0 fcs le_rfl
  obtain ⟨h1, h2, h3⟩ := sendCFs_ok_spec none
    (((service :: data).drop 6).length + fcs.length)
    ((service :: data).drop 6) 1 0 0 fcs evs2 le_rfl hok (by norm_num)
  refine ⟨evs2, ?_, ffDeclared_pci _, ?_, ?_⟩
  · unfold send
    simp only [Option.isSome_none, Bool.false_eq_true, reduceIte]
    rw [if_neg (by omega), hfc]
    dsimp only
    rw [hok]
    rfl
  · have := congrArg List.length h1
    rw [List.length_flatten, List.length_drop] at this
    omega
  · rw [ffDeclared_pci]
    omega

/-- Witness for C10: a 4096-byte payload. -/
theorem first_frame_length_truncation_witness :
    4095 < ((0 : ℕ) :: List.replicate 4095 0).length ∧
    (∃ tail,
      send none 0 (List.replicate 4095 0) (⟨0, 0, 0⟩ :: []) =
        .ok (.txFF (0x10 ||| ((((0 : ℕ) :: List.replicate 4095 0).length >>> 8) &&& 0xF))
              (((0 : ℕ) :: List.replicate 4095 0).length &&& 0xFF)
              (((0 : ℕ) :: List.replicate 4095 0).take 6)
            :: .fcAwait :: tail) ∧
      ffDeclared (0x10 ||| ((((0 : ℕ) :: List.replicate 4095 0).length >>> 8) &&& 0xF))
          (((0 : ℕ) :: List.replicate 4095 0).length &&& 0xFF) =
        ((0 : ℕ) :: List.replicate 4095 0).length % 4096 ∧
      6 + ((cfChunks tail).map List.length).sum =
        ((0 : ℕ) :: List.replicate 4095 0).length ∧
      ffDeclared (0x10 ||| ((((0 : ℕ) :: List.replicate 4095 0).length >>> 8) &&& 0xF))
          (((0 : ℕ) :: List.replicate 4095 0).length &&& 0xFF) ≠
        ((0 : ℕ) :: List.replicate 4095 0).length) :=
  ⟨by rw [List.length_cons, List.length_replicate]; omega,
    first_frame_length_truncation 0 (List.replicate 4095 0) 0 []
      (by rw [List.length_cons, List.length_replicate]; omega)⟩

/-! ## Security access (`UDSClient.security_access`, src/uds.py 331-359)

The two `request` exchanges are made explicit: `rsp1` is the seed
response, `rsp2` the key response. The returned pair is the key byte
string transmitted in the second request (if one was sent) and the
call's boolean result. -/

/-- Embedding of `UDSClient._default_key_algo`: byte-wise inversion. -/
def _default_key_algo (seed : List ℕ) : List ℕ :=
  seed.map (fun b => (b ^^^ 0xFF) &&& 0xFF)

/-- Embedding of `UDSClient.security_access`. -/
def security_access (keyAlgo : Option (List ℕ → List ℕ)) (level : ℕ)
    (key : Option (List ℕ)) (rsp1 rsp2 : List ℕ) : Option (List ℕ) × Bool :=
  if rsp1 = [] ∨ rsp1.headI ≠ 0x67 then (none, false)
  else
    let seed := rsp1.drop 2
    let k := match key with
      | some k0 => k0
      | none => (keyAlgo.getD _default_key_algo) seed
    (some k, rsp2.take 2 == [0x67, level * 2])

set_option maxRecDepth 4000 in
/-- C6: with no `key_algo` and no explicit key, a seed response starting
`0x67` makes the client transmit the byte-wise complement `255 - b` of
each seed byte, and the call returns `True` exactly when the second
response begins `0x67, level*2`. -/
theorem security_access_default_key (level : ℕ) (rsp1 rsp2 : List ℕ)
    (h1 : rsp1.headI = 0x67) (h2 : rsp1 ≠ [])
    (hbytes : ∀ b ∈ rsp1, b < 256) :
    (security_access none level none rsp1 rsp2).1 =
      some ((rsp1.drop 2).map (fun b => 255 - b)) ∧
    ((security_access none level none rsp1 rsp2).2 = true ↔
      rsp2.take 2 = [0x67, level * 2]) := by
  have hcond : ¬(rsp1 = [] ∨ rsp1.headI ≠ 0x67) := by
    push_neg
    exact ⟨h2, h1⟩
  unfold security_access
  rw [if_neg hcond]
  dsimp only
  constructor
  · congr 1
    unfold _default_key_algo
    apply List.map_congr_left
    intro b hb
    have hb256 : b < 256 := hbytes b (List.mem_of_mem_drop hb)
    have hxor : ∀ c : ℕ, c < 256 → (c ^^^ 0xFF) &&& 0xFF = 255 - c := by decide
    exact hxor b hb256
  · simp

/-- Witness for C6: the spec's scenario — seed `0xAA 0xBB` yields key
`0x55 0x44` and a matching key-acknowledge response returns `True`. -/
theorem security_access_default_key_witness :
    ([0x67, 0x01, 0xAA, 0xBB].headI = 0x67 ∧ [0x67, 0x01, 0xAA, 0xBB] ≠ ([] : List ℕ) ∧
      (∀ b ∈ [0x67, 0x01, 0xAA, 0xBB], b < 256)) ∧
    ((security_access none 1 none [0x67, 0x01, 0xAA, 0xBB] [0x67, 0x02]).1 =
        some (([0x67, 0x01, 0xAA, 0xBB].drop 2).map (fun b => 255 - b)) ∧
      ((security_access none 1 none [0x67, 0x01, 0xAA, 0xBB] [0x67, 0x02]).2 = true ↔
        [0x67, 0x02].take 2 = [0x67, 1 * 2])) ∧
    ([0x67, 0x01, 0xAA, 0xBB].drop 2).map (fun b => 255 - b) = [0x55, 0x44] :=
  ⟨⟨rfl, by simp, by decide⟩,
    security_access_default_key 1 [0x67, 0x01, 0xAA, 0xBB] [0x67, 0x02]
      rfl (by simp) (by decide),
    by decide⟩

end OBD
